import Mathlib

/-!
Verification of the view-synchronization core against its specification.

The development shallowly embeds the parts of the program that the
verified properties speak about:

* the client-side poke handler (`mergePokes`, the animation-tick apply loop),
* the server-side per-client handler (`ClientHandler`: patch filtering,
  framing, and the safe-integer check on row contents),
* the replicator's cross-table ChangeLog (`logSetOp` / `logDeleteOp` /
  `logTruncateOp` over the `_zero.ChangeLog` SQLite table),
* the change-streamer's replication-config bootstrap
  (`ensureReplicationConfig`) and the worker supervisor's auto-reset retry,
* the view-syncer's query transformation (`QueryHandler.transform`) and
  result deconstruction (`ResultProcessor.processResults`).

Machine integers do not overflow in any of the modelled code paths, so
numbers are embedded as `Nat` / `Int`.  JavaScript objects are embedded
either as association lists (where iteration order matters) or as
functions into `Option` (where only lookup matters).  Fallible operations
return `Except`.
-/

namespace ZeroSync

/-! ## Client poke handler (`zero-poke-handler`)

Modelled from the spec: the implementation of `mergePokes` and
`PokeHandler` is not part of the source tree (only its unit tests are),
so the definitions below follow §4.8 / §4.8.1 of the specification and
the wire shapes exercised by the tests.

Cookies are watermarks; only equality on them is used by the merge, so
they are embedded as naturals.  A poke part carries the five optional
payloads; object-valued payloads whose iteration order is observable
(`clientsPatch`, `desiredQueriesPatches`, `gotQueriesPatch`,
`entitiesPatch`) are lists, while `lastMutationIDChanges` (a JS object
consulted only by key) is a function from client id to `Option Nat`.
Opaque JSON payloads (query ASTs, entity values) are embedded as strings.
-/

/-- Values appearing in a merged patch: the client-membership `put` writes
the literal `true`, the other `put`s write an opaque JSON payload. -/
inductive JSVal where
  | jsBool (b : Bool)
  | jsStr (s : String)
  deriving DecidableEq, Repr

/-- A client-set patch operation (`clientsPatch` entry). -/
inductive ClientOp where
  | put (clientID : String)
  | del (clientID : String)
  deriving DecidableEq, Repr

/-- A query patch operation (`desiredQueriesPatches` / `gotQueriesPatch`
entry); the `ast` payload is opaque. -/
inductive QueryOp where
  | put (hash : String) (ast : String)
  | del (hash : String)
  deriving DecidableEq, Repr

/-- An entity patch operation (`entitiesPatch` entry); the value is
opaque. -/
inductive EntityOp where
  | put (key : String) (value : String)
  | del (key : String)
  deriving DecidableEq, Repr

/-- One operation of the merged, namespaced patch handed to the
downstream applier. -/
inductive MergedOp where
  | put (key : String) (value : JSVal)
  | del (key : String)
  deriving DecidableEq, Repr

/-- One `pokePart` frame's payload. -/
structure PokePart where
  lastMutationIDChanges : String → Option Nat
  clientsPatch : List ClientOp
  desiredQueriesPatches : List (String × List QueryOp)
  gotQueriesPatch : List QueryOp
  entitiesPatch : List EntityOp

/-- A completed poke: the `pokeStart` header plus the accumulated parts. -/
structure Poke where
  pokeID : String
  baseCookie : Nat
  cookie : Nat
  parts : List PokePart

/-- The merged poke handed to the downstream applier
(`{baseCookie, pullResponse: {cookie, lastMutationIDChanges, patch}}`). -/
@[ext]
structure MergedPoke where
  baseCookie : Nat
  cookie : Nat
  lastMutationIDChanges : String → Option Nat
  patch : List MergedOp

/-- Namespaced key rewrite for a client-set operation: client `c` maps to
key `c/<clientID>`, a `put` writing the literal `true`. -/
def clientOpPatch : ClientOp → MergedOp
  | .put cid => .put ("c/" ++ cid) (.jsBool true)
  | .del cid => .del ("c/" ++ cid)

/-- Namespaced key rewrite for a desired-query operation of client
`cid`: key `d/<clientID>/<hash>`. -/
def desiredOpPatch (cid : String) : QueryOp → MergedOp
  | .put hash ast => .put ("d/" ++ cid ++ "/" ++ hash) (.jsStr ast)
  | .del hash => .del ("d/" ++ cid ++ "/" ++ hash)

/-- Namespaced key rewrite for a got-query operation: key `g/<hash>`. -/
def gotOpPatch : QueryOp → MergedOp
  | .put hash ast => .put ("g/" ++ hash) (.jsStr ast)
  | .del hash => .del ("g/" ++ hash)

/-- Namespaced key rewrite for an entity operation: key `e/<key>`. -/
def entityOpPatch : EntityOp → MergedOp
  | .put key value => .put ("e/" ++ key) (.jsStr value)
  | .del key => .del ("e/" ++ key)

/-- The flat namespaced patch contributed by one poke part, in field
order: clients, desired queries (per client, in order), got queries,
entities. -/
def partPatch (p : PokePart) : List MergedOp :=
  p.clientsPatch.map clientOpPatch
    ++ p.desiredQueriesPatches.flatMap (fun cq => cq.2.map (desiredOpPatch cq.1))
    ++ p.gotQueriesPatch.map gotOpPatch
    ++ p.entitiesPatch.map entityOpPatch

/-- The flat namespaced patch contributed by a whole poke (parts in
order). -/
def pokePatch (p : Poke) : List MergedOp :=
  p.parts.flatMap partPatch

/-- Maximum of two optional mutation ids (`none` is the identity). -/
def omax : Option Nat → Option Nat → Option Nat
  | none, b => b
  | some x, none => some x
  | some x, some y => some (max x y)

/-- Per-client mutation-id merge over a list of parts: the max over all
parts that mention the client. -/
def partsLmid (parts : List PokePart) (c : String) : Option Nat :=
  parts.foldl (fun o pt => omax o (pt.lastMutationIDChanges c)) none

/-- A single poke collapsed to applier form: its own parts merged. -/
def toMerged (p : Poke) : MergedPoke :=
  { baseCookie := p.baseCookie
    cookie := p.cookie
    lastMutationIDChanges := fun c => partsLmid p.parts c
    patch := pokePatch p }

/-- Unchecked combination of two chained merged pokes: base of the first,
cookie of the second, per-client max of the mutation ids, concatenated
patches. -/
def combinePokes (a b : MergedPoke) : MergedPoke :=
  { baseCookie := a.baseCookie
    cookie := b.cookie
    lastMutationIDChanges := fun c =>
      omax (a.lastMutationIDChanges c) (b.lastMutationIDChanges c)
    patch := a.patch ++ b.patch }

/-- Binary merge: the second poke's base cookie must equal the first
poke's cookie; any gap is a fatal merge error. -/
def mergePoke (a b : MergedPoke) : Except String MergedPoke :=
  if b.baseCookie = a.cookie then .ok (combinePokes a b) else
    .error "unexpected cookie gap"

/-- Folds the remaining pokes into an accumulated merged poke, failing on
the first cookie gap. -/
def mergeInto (acc : MergedPoke) : List Poke → Except String MergedPoke
  | [] => .ok acc
  | q :: rest =>
    match mergePoke acc (toMerged q) with
    | .ok m => mergeInto m rest
    | .error e => .error e

/-- Merge of a list of completed pokes: `none` for the empty list,
otherwise the left fold of the binary merge; raises on a cookie gap. -/
def mergePokes : List Poke → Except String (Option MergedPoke)
  | [] => .ok none
  | p :: rest => (mergeInto (toMerged p) rest).map some

/-- Chaining check starting from a given cookie: each poke's base cookie
must equal the running cookie. -/
def chainedFrom (ck : Nat) : List Poke → Bool
  | [] => true
  | q :: rest => (q.baseCookie == ck) && chainedFrom q.cookie rest

/-- Chaining check for a whole list: each poke's base cookie equals the
previous poke's cookie. -/
def chained : List Poke → Bool
  | [] => true
  | p :: rest => chainedFrom p.cookie rest

/-- Gap-free left fold of `combinePokes` (the value `mergeInto` computes
when every link chains). -/
def mergeAll (acc : MergedPoke) : List Poke → MergedPoke
  | [] => acc
  | q :: rest => mergeAll (combinePokes acc (toMerged q)) rest

/-- Cookie of the last poke of a list, with a default for the empty
list. -/
def lastCookieD (d : Nat) : List Poke → Nat
  | [] => d
  | q :: rest => lastCookieD q.cookie rest

/-! ### The animation-tick apply loop

Modelled from the spec: completed pokes accumulate in a FIFO until the
next animation-frame tick; the tick merges them into a single apply.  A
failure during merge or apply fires `onPokeError` and clears all pending
pokes. -/

/-- Handler state relevant to the apply loop: the FIFO of completed pokes
awaiting the next animation tick. -/
structure HandlerState where
  pokeBuffer : List Poke

/-- Observable outcome of one animation tick: the successor state,
whether `onPokeError` fired, and the merged poke passed to the downstream
applier (if any). -/
structure TickResult where
  state : HandlerState
  pokeError : Bool
  applied : Option MergedPoke

/-- One animation tick: merge all pending pokes; a merge error fires
`onPokeError` and clears the buffer; an empty buffer applies nothing;
otherwise the single merged poke is applied and the buffer cleared. -/
def tick (s : HandlerState) : TickResult :=
  match mergePokes s.pokeBuffer with
  | .error _ => { state := ⟨[]⟩, pokeError := true, applied := none }
  | .ok none => { state := ⟨[]⟩, pokeError := false, applied := none }
  | .ok (some m) => { state := ⟨[]⟩, pokeError := false, applied := some m }

/-! ## Server-side client handler (`view-syncer/client-handler`)

Modelled from the spec: the `ClientHandler` implementation is not part of
the source tree (only its unit test is).  Per §4.7, `startPoke(version)`
opens a poke toward `version`; a client already at or past that version
receives no frames at all (the handler's unit test shows the caught-up
client receiving nothing for such a poke).  `addPatch({toVersion, patch})`
buffers the patch only if `toVersion` is greater than the client's base
cookie; `end()` flushes the frames: `pokeStart`, one `pokePart` carrying
the buffered patches (elided when empty), and `pokeEnd`.

Versions (`CVRVersion`s) are totally ordered; only their order is used,
so they are embedded as naturals.  Patch bodies are opaque strings. -/

/-- A frame on the client handler's outbound stream.  The `pokeID` is the
cookie of the poke's target version. -/
inductive Frame where
  | pokeStart (pokeID baseCookie cookie : Nat)
  | pokePart (pokeID : Nat) (patches : List String)
  | pokeEnd (pokeID : Nat)
  deriving DecidableEq, Repr

/-- An in-progress poke toward `version` for a client whose base cookie
is `baseCookie`.  `active` is false when the client was already caught
up at `startPoke` time, in which case the whole poke is a no-op. -/
structure Poker where
  baseCookie : Nat
  version : Nat
  active : Bool
  buffer : List String
  deriving DecidableEq, Repr

/-- Opens a poke toward `version`; a client whose base cookie is at or
past `version` gets an inactive (no-op) poker. -/
def startPoke (baseCookie version : Nat) : Poker :=
  { baseCookie, version, active := baseCookie < version, buffer := [] }

/-- Adds a patch: it is buffered only when the poker is active and the
patch's `toVersion` is greater than the client's base cookie. -/
def addPatch (p : Poker) (toVersion : Nat) (patch : String) : Poker :=
  if p.active && decide (p.baseCookie < toVersion) then
    { p with buffer := p.buffer ++ [patch] }
  else p

/-- Ends the poke, flushing the frames: nothing for an inactive poker,
otherwise `pokeStart`, a single `pokePart` with the buffered patches
(elided when the buffer is empty), and `pokeEnd`. -/
def endPoke (p : Poker) : List Frame :=
  if p.active then
    [Frame.pokeStart p.version p.baseCookie p.version]
      ++ (if p.buffer.isEmpty then [] else [Frame.pokePart p.version p.buffer])
      ++ [Frame.pokeEnd p.version]
  else []

/-- A whole poke session: `startPoke`, one `addPatch` per listed
`(toVersion, patch)` pair in order, then `end`. -/
def clientPoke (baseCookie version : Nat) (patches : List (Nat × String)) :
    List Frame :=
  endPoke (patches.foldl (fun pk q => addPatch pk q.1 q.2) (startPoke baseCookie version))

/-- The patch bodies appearing in `pokePart` frames of a stream. -/
def emittedPatches (frames : List Frame) : List String :=
  frames.flatMap fun f =>
    match f with
    | .pokePart _ ps => ps
    | _ => []

/-! ### Safe-integer check on row patch contents

Modelled from the spec: per §4.7, any integer value in an outbound row
patch that exceeds the safe-integer range of IEEE 754 doubles is rejected
at emit time with `UnsafeIntegerError` rather than silently truncated.
Row contents are embedded as association lists from column name to
integer value (non-numeric column values cannot trigger the check and are
omitted from the model). -/

/-- Largest integer exactly representable in an IEEE 754 double,
`2 ^ 53 - 1`. -/
def maxSafeInteger : Int := 9007199254740991

/-- Whether an integer value fits the safe-integer range of doubles. -/
def isSafeInteger (v : Int) : Bool :=
  decide (-maxSafeInteger ≤ v) && decide (v ≤ maxSafeInteger)

/-- Emits the contents of a row patch, value by value; the first value
outside the safe-integer range raises `UnsafeIntegerError`. -/
def emitRowContents : List (String × Int) → Except String (List (String × Int))
  | [] => .ok []
  | (k, v) :: rest =>
    if isSafeInteger v then (emitRowContents rest).map (fun r => (k, v) :: r)
    else .error "UnsafeIntegerError"

/-! ## Replicator ChangeLog (`replicator/schema/change-log.ts`)

The `_zero.ChangeLog` SQLite table has columns
`(stateVersion, table, rowKey, op)` with `UNIQUE("table", rowKey)`.
It is embedded as a list of entries in rowid order.  A `RowKey` is
embedded as its normalized JSON serialization (the source serializes
`stringify(normalizedKeyOrder(row))` before hitting the database);
`rowKey` is `none` for the truncate sentinel (SQL `NULL`). -/

namespace ChangeLog

/-- Op code for set (insert/update). -/
def SET_OP : String := "s"

/-- Op code for delete. -/
def DEL_OP : String := "d"

/-- Op code for table truncation. -/
def TRUNCATE_OP : String := "t"

/-- One row of the `_zero.ChangeLog` table. -/
structure Entry where
  stateVersion : String
  table : String
  rowKey : Option String
  op : String
  deriving DecidableEq, Repr

/-- Whether an entry matches the `("table", rowKey)` conflict target for
a non-null row key (SQL `NULL` row keys never match). -/
def sameRowKey (e : Entry) (t k : String) : Bool :=
  e.table == t && e.rowKey == some k

/-- The `INSERT ... ON CONFLICT ("table", rowKey) DO UPDATE SET
stateVersion, op` statement of `logRowOp`: an existing live entry for the
same `(table, rowKey)` is overwritten in place with the newer state
version and op; otherwise a new entry is appended. -/
def logRowOp (db : List Entry) (version t k op : String) : List Entry :=
  if db.any (fun e => sameRowKey e t k) then
    db.map fun e =>
      if sameRowKey e t k then { e with stateVersion := version, op := op } else e
  else db ++ [{ stateVersion := version, table := t, rowKey := some k, op := op }]

/-- Logs a set (insert/update) of the row. -/
def logSetOp (db : List Entry) (version t k : String) : List Entry :=
  logRowOp db version t k SET_OP

/-- Logs a delete of the row. -/
def logDeleteOp (db : List Entry) (version t k : String) : List Entry :=
  logRowOp db version t k DEL_OP

/-- Logs a table truncation: all prior entries for the table are deleted
and a single truncate sentinel with a `NULL` row key is inserted. -/
def logTruncateOp (db : List Entry) (version t : String) : List Entry :=
  (db.filter fun e => e.table != t)
    ++ [{ stateVersion := version, table := t, rowKey := none, op := TRUNCATE_OP }]

/-- The invariant enforced by `UNIQUE("table", rowKey)` together with the
truncate rewrite: no two live entries share a `(table, rowKey)` pair. -/
def keyUnique (db : List Entry) : Prop :=
  List.Pairwise (fun e₁ e₂ => ¬(e₁.table = e₂.table ∧ e₁.rowKey = e₂.rowKey)) db

instance (db : List Entry) : Decidable (keyUnique db) :=
  inferInstanceAs (Decidable (List.Pairwise _ db))

/-- First live entry for a `(table, rowKey)` pair. -/
def findRow (db : List Entry) (t k : String) : Option Entry :=
  db.find? fun e => sameRowKey e t k

end ChangeLog

/-! ## Change-streamer replication config (`change-streamer/schema/tables.ts`)

`ensureReplicationConfig` runs in one transaction: it reads the singleton
`replicationConfig` row; if one exists whose `(replicaVersion,
publications)` disagrees with the supplied config, the cdc tables are
truncated and re-initialized; if the tables were empty they are
initialized; otherwise (a compatible stored row) a set `resetRequired`
raises `AutoResetSignal` when `autoReset` is configured, and merely warns
when it is not. -/

namespace ChangeStreamer

/-- The replication config supplied by the caller (the live replica's). -/
structure ReplicationConfig where
  replicaVersion : String
  publications : List String
  deriving DecidableEq, Repr

/-- The stored singleton `replicationConfig` row; `resetRequired` is a
nullable boolean. -/
structure StoredConfig where
  replicaVersion : String
  publications : List String
  resetRequired : Option Bool
  deriving DecidableEq, Repr

/-- Set equality of publication lists
(`equals(new Set(a), new Set(b))`). -/
def sameSet (a b : List String) : Bool :=
  a.all (fun x => b.contains x) && b.all (fun x => a.contains x)

/-- Observable outcome of `ensureReplicationConfig` when it does not
raise. -/
inductive EnsureOutcome where
  /-- The cdc tables were empty; config and state rows were inserted. -/
  | initialized
  /-- Incompatible data was found; the tables were truncated and the
  rows re-inserted. -/
  | reinitialized
  /-- A compatible stored config; nothing was changed (covers the
  reset-required-but-auto-reset-disabled warning path). -/
  | unchanged
  deriving DecidableEq, Repr

/-- Embedding of `ensureReplicationConfig`: `stored` is the singleton
`replicationConfig` row if present.  Raising `AutoResetSignal` is the
`Except.error` case. -/
def ensureReplicationConfig (stored : Option StoredConfig)
    (config : ReplicationConfig) (autoReset : Bool) :
    Except String EnsureOutcome :=
  match stored with
  | none => .ok .initialized
  | some s =>
    if s.replicaVersion != config.replicaVersion
        || !sameSet s.publications config.publications then
      .ok .reinitialized
    else if s.resetRequired == some true then
      if autoReset then .error "AutoResetSignal" else .ok .unchanged
    else .ok .unchanged

/-- Classification of a failed initialization attempt in the
change-streamer worker (initial sync plus `initializeStreamer`). -/
inductive InitError where
  | autoResetSignal
  | databaseInit
  | other
  deriving DecidableEq, Repr

/-- Embedding of `runWorker`'s two-iteration recovery loop
(`for (const first of [true, false])`): `first` and `second` are the
outcomes of the two initialization attempts (the streamer is opaque).
When the first attempt raises `AutoResetSignal`, the replica file is
deleted and initial sync re-run — the boolean in the result records this
— and any error of the second attempt, a second `AutoResetSignal`
included, propagates. -/
def superviseInit (first second : Except InitError Nat) :
    Except InitError (Bool × Nat) :=
  match first with
  | .ok s => .ok (false, s)
  | .error .autoResetSignal =>
    match second with
    | .ok s => .ok (true, s)
    | .error e => .error e
  | .error e => .error e

end ChangeStreamer

/-! ## View-syncer queries (`view-syncer/queries.ts`)

`QueryHandler.transform` expands each client query, looking up the table
spec of every table the AST references; an unknown table raises
`InvalidQueryError`.  `ResultProcessor.processResults` deconstructs flat
query results into per-table sub-rows, records each sub-row's
`_0_version` as its row version, strips that column from the contents,
and merges the sub-rows into a map of `RowResult`s. -/

namespace Queries

/-- The `_0_version` column name (`ZERO_VERSION_COLUMN_NAME`). -/
def zeroVersionColumn : String := "_0_version"

/-- Table specification; `transform` and the result processor consult
only the schema, name and primary key. -/
structure TableSpec where
  schema : String
  name : String
  primaryKey : List String
  deriving DecidableEq, Repr

/-- Map key of a table spec (`` `${t.schema}.${t.name}` ``). -/
def specKey (t : TableSpec) : String := t.schema ++ "." ++ t.name

/-- A table reference is qualified with the `public` schema when it has
no dot (`tableRef.includes('.')`, checked over the characters). -/
def refKey (tableRef : String) : String :=
  if tableRef.data.contains '.' then tableRef else "public." ++ tableRef

/-- `TableSchemas.spec`: looks the reference up among the configured
table specs. -/
def findSpec (tables : List TableSpec) (tableRef : String) : Option TableSpec :=
  tables.find? fun t => specKey t == refKey tableRef

/-- Modelled from the spec: the query AST is opaque to the view syncer,
and `expandSelection` (whose implementation is not part of the source
tree) invokes the required-columns callback for every table the AST
references (§4.5 expands the selection of every referenced table).  The
embedding keeps exactly the data this consumes: the references. -/
structure AST where
  referencedTables : List String
  deriving DecidableEq, Repr

/-- The error raised by `transform` for an AST referencing an unknown
table. -/
inductive QueryError where
  | invalidQuery (tableRef : String)
  deriving DecidableEq, Repr

/-- Expansion of one query: every referenced table's selection gains that
table's primary-key columns and the `_0_version` column; an unknown
reference raises `InvalidQueryError`. -/
def expandSelection (tables : List TableSpec) :
    List String → Except QueryError (List (String × List String))
  | [] => .ok []
  | tr :: rest =>
    match findSpec tables tr with
    | none => .error (.invalidQuery tr)
    | some t =>
      (expandSelection tables rest).map
        fun r => (tr, t.primaryKey ++ [zeroVersionColumn]) :: r

/-- `QueryHandler.transform` over a list of `(queryID, ast)` records: the
first query whose AST references an unknown table aborts the whole
transform with `InvalidQueryError`.  (The normalization and hashing of
the expanded AST happen in code outside the source tree and are opaque
to this property; the expansion result stands in for the transformed
query.) -/
def transform (tables : List TableSpec) :
    List (String × AST) →
    Except QueryError (List (String × List (String × List String)))
  | [] => .ok []
  | q :: rest =>
    match expandSelection tables q.2.referencedTables with
    | .error e => .error e
    | .ok ex => (transform tables rest).map fun r => (q.1, ex) :: r

/-! ### Result processing -/

/-- A scalar cell of a query result row. -/
inductive Val where
  | vStr (s : String)
  | vInt (n : Int)
  | vBool (b : Bool)
  | vNull
  deriving DecidableEq, Repr

/-- JavaScript truthiness of a cell (the source's bare
`assert(val, ...)`). -/
def truthy : Val → Bool
  | .vStr s => s != ""
  | .vInt n => n != 0
  | .vBool b => b
  | .vNull => false

/-- A row object: ordered association list from column name to cell. -/
abbrev Row := List (String × Val)

/-- Property read (`row[col]`): the first binding wins. -/
def lookupCol (row : Row) (c : String) : Option Val :=
  (row.find? fun kv => kv.1 == c).map (·.2)

/-- Property write (`row[col] = v`): overwrites an existing binding in
place, otherwise appends. -/
def setCol (row : Row) (c : String) (v : Val) : Row :=
  if row.any (fun kv => kv.1 == c) then
    row.map fun kv => if kv.1 == c then (c, v) else kv
  else row ++ [(c, v)]

/-- Property delete (`delete row[col]`). -/
def eraseCol (row : Row) (c : String) : Row :=
  row.filter fun kv => kv.1 != c

/-- Object spread `{...a, ...b}`: `b`'s bindings written over `a`. -/
def spreadMerge (a b : Row) : Row :=
  b.foldl (fun acc kv => setCol acc kv.1 kv.2) a

/-- Split of a character list at its last occurrence of `sep`:
`none` when `sep` does not occur. -/
def breakLast (sep : Char) : List Char → Option (List Char × List Char)
  | [] => none
  | c :: cs =>
    match breakLast sep cs with
    | some ps => some (c :: ps.1, ps.2)
    | none => if c == sep then some ([], cs) else none

/-- `splitLastComponent`: splits at the last `/`
(`str.lastIndexOf(ALIAS_COMPONENT_SEPARATOR)`); a string without a
separator has an empty prefix. -/
def splitLastComponent (s : String) : String × String :=
  match breakLast '/' s.data with
  | none => ("", s)
  | some ps => (String.mk ps.1, String.mk ps.2)

/-- Inserts one aliased cell into the partition of a flat result:
`rows.get(rowAlias)` is extended in place, or a fresh sub-row object is
appended. -/
def addAliasedCell (rows : List (String × Row)) (aliasName : String) (v : Val) :
    List (String × Row) :=
  let ra := (splitLastComponent aliasName).1
  let cn := (splitLastComponent aliasName).2
  if rows.any (fun r => r.1 == ra) then
    rows.map fun r => if r.1 == ra then (ra, setCol r.2 cn v) else r
  else rows ++ [(ra, [(cn, v)])]

/-- Partitions one flat result into its per-alias sub-rows (the first
loop of `processResults`). -/
def partitionResult (result : Row) : List (String × Row) :=
  result.foldl (fun rows av => addAliasedCell rows av.1 av.2) []

/-- Identity of a sub-row: schema, table, primary-key values. -/
structure RowID where
  schema : String
  table : String
  rowKey : Row
  deriving DecidableEq, Repr

/-- Reads the primary-key columns out of a sub-row; a missing (or falsy)
key cell is an assertion failure. -/
def pkValues (row : Row) : List String → Except String Row
  | [] => .ok []
  | col :: cols =>
    match lookupCol row col with
    | some v =>
      if truthy v then (pkValues row cols).map (fun r => (col, v) :: r)
      else .error ("Primary key " ++ col ++ " missing from row")
    | none => .error ("Primary key " ++ col ++ " missing from row")

/-- `TableSchemas.rowID`: resolves the table spec (an unknown table is an
assertion failure) and projects the primary key. -/
def rowID (tables : List TableSpec) (tableRef : String) (row : Row) :
    Except String RowID :=
  match findSpec tables tableRef with
  | none => .error ("No TableSpec for " ++ tableRef)
  | some t => (pkValues row t.primaryKey).map fun key =>
      { schema := t.schema, table := t.name, rowKey := key }

/-- Serialization of a cell, for the row-key fingerprint. -/
def valRepr : Val → String
  | .vStr s => "s:" ++ s
  | .vInt n => "i:" ++ toString n
  | .vBool b => "b:" ++ toString b
  | .vNull => "null"

/-- Modelled from the spec: `rowKeyHash` (implemented outside the source
tree) is a stable fingerprint of the normalized row key; embedded as its
comma-separated serialization in primary-key order. -/
def rowKeyHash : Row → String
  | [] => ""
  | [kv] => kv.1 ++ "=" ++ valRepr kv.2
  | kv :: rest => kv.1 ++ "=" ++ valRepr kv.2 ++ "," ++ rowKeyHash rest

/-- `makeKey`: `` `${schema}/${table}/${hash}` ``. -/
def makeKey (id : RowID) : String :=
  id.schema ++ "/" ++ id.table ++ "/" ++ rowKeyHash id.rowKey

/-- The record half of a `RowResult` (sans `putPatch`). -/
structure RowRecord where
  id : RowID
  rowVersion : String
  queriedColumns : List (String × List String)
  deriving DecidableEq, Repr

/-- One deconstructed row: its record and its merged contents. -/
structure RowResult where
  record : RowRecord
  contents : Row
  deriving DecidableEq, Repr

/-- The processor's accumulated `#results` map, in insertion order. -/
abbrev ResultState := List (String × RowResult)

/-- Map read on the results map. -/
def lookupRes (st : ResultState) (k : String) : Option RowResult :=
  (st.find? fun e => e.1 == k).map (·.2)

/-- Map write on the results map (`Map.set` semantics). -/
def upsertRes (st : ResultState) (k : String) (rr : RowResult) : ResultState :=
  if st.any (fun e => e.1 == k) then
    st.map fun e => if e.1 == k then (k, rr) else e
  else st ++ [(k, rr)]

/-- Appends `queryID` to the column's query list
(`(queriedColumns[col] ??= []).push(queryID)`). -/
def pushQuery (qc : List (String × List String)) (col queryID : String) :
    List (String × List String) :=
  if qc.any (fun e => e.1 == col) then
    qc.map fun e => if e.1 == col then (col, e.2 ++ [queryID]) else e
  else qc ++ [(col, [queryID])]

/-- Merges one partitioned sub-row into the results map (the second loop
of `processResults`): resolves the row id, asserts a string `_0_version`,
strips it from the contents, then merges record and contents into the
entry keyed by the row's fingerprint. -/
def processRow (tables : List TableSpec) (queryID : String) (st : ResultState)
    (rowAlias : String) (row : Row) : Except String ResultState :=
  match rowID tables (splitLastComponent rowAlias).2 row with
  | .error e => .error e
  | .ok id =>
    let key := makeKey id
    match lookupCol row zeroVersionColumn with
    | some (.vStr ver) =>
      let row' := eraseCol row zeroVersionColumn
      let rr := (lookupRes st key).getD
        { record := { id := id, rowVersion := ver, queriedColumns := [] }
          contents := [] }
      let record' := { rr.record with
        queriedColumns :=
          row'.foldl (fun qc kv => pushQuery qc kv.1 queryID) rr.record.queriedColumns }
      let contents' := spreadMerge rr.contents row'
      .ok (upsertRes st key { record := record', contents := contents' })
    | _ => .error "Invalid _0_version in row"

/-- Merges a list of partitioned sub-rows left to right, stopping at the
first assertion failure. -/
def processRows (tables : List TableSpec) (queryID : String)
    (st : ResultState) : List (String × Row) → Except String ResultState
  | [] => .ok st
  | r :: rs =>
    match processRow tables queryID st r.1 r.2 with
    | .ok st2 => processRows tables queryID st2 rs
    | .error e => .error e

/-- Processes one flat result: partition, then merge each sub-row. -/
def processResult (tables : List TableSpec) (queryID : String)
    (st : ResultState) (result : Row) : Except String ResultState :=
  processRows tables queryID st (partitionResult result)

/-- `ResultProcessor.processResults` for one query's results. -/
def processResults (tables : List TableSpec) (queryID : String)
    (st : ResultState) : List Row → Except String ResultState
  | [] => .ok st
  | r :: rs =>
    match processResult tables queryID st r with
    | .ok st2 => processResults tables queryID st2 rs
    | .error e => .error e

/-- `getResults`: the accumulated row results, in insertion order. -/
def getResults (st : ResultState) : List RowResult :=
  st.map (·.2)

/-- Whether a row object carries no `_0_version` binding. -/
def noVersionKey (row : Row) : Bool :=
  row.all fun kv => kv.1 != zeroVersionColumn

/-- Invariant of the results map: no contents returned by `getResults`
mention `_0_version`. -/
def cleanState (st : ResultState) : Bool :=
  (getResults st).all fun rr => noVersionKey rr.contents

/-- Whether a sub-row carries a string-typed `_0_version` cell. -/
def hasStringVersion (row : Row) : Bool :=
  match lookupCol row zeroVersionColumn with
  | some (.vStr _) => true
  | _ => false

end Queries

/-! ## Sample data for the concrete witnesses -/

/-- Mutation-id object `{c1: 1, c2: 2}`. -/
def sampleLmid (c : String) : Option Nat :=
  if c == "c1" then some 1 else if c == "c2" then some 2 else none

/-- A poke part exercising every payload kind. -/
def samplePart1 : PokePart :=
  { lastMutationIDChanges := sampleLmid
    clientsPatch := [.put "c2"]
    desiredQueriesPatches := [("c1", [.put "h1" "ast1"])]
    gotQueriesPatch := [.put "h1" "ast1"]
    entitiesPatch := [.put "foo" "foo1"] }

/-- A poke part with deletions and mutation-id object `{c1: 3}`. -/
def samplePart2 : PokePart :=
  { lastMutationIDChanges := fun c => if c == "c1" then some 3 else none
    clientsPatch := [.del "c2"]
    desiredQueriesPatches := [("c1", [.del "h1"])]
    gotQueriesPatch := [.del "h1"]
    entitiesPatch := [.del "baz"] }

/-- A completed poke from cookie 1 to 2. -/
def samplePoke1 : Poke :=
  { pokeID := "poke1", baseCookie := 1, cookie := 2, parts := [samplePart1] }

/-- A completed poke from cookie 2 to 3, chaining onto `samplePoke1`. -/
def samplePoke2 : Poke :=
  { pokeID := "poke2", baseCookie := 2, cookie := 3, parts := [samplePart2] }

/-- A completed empty poke from cookie 3 to 4, chaining onto
`samplePoke2`. -/
def samplePoke3 : Poke :=
  { pokeID := "poke3", baseCookie := 3, cookie := 4, parts := [] }

/-- A completed poke whose base cookie 5 does not chain onto
`samplePoke1`'s cookie 2. -/
def samplePokeGap : Poke :=
  { pokeID := "poke4", baseCookie := 5, cookie := 6, parts := [samplePart2] }

/-! ## Poke-merge lemmas -/

theorem omax_none_right (a : Option Nat) : omax a none = a := by
  cases a <;> rfl

theorem omax_assoc (a b c : Option Nat) :
    omax (omax a b) c = omax a (omax b c) := by
  cases a <;> cases b <;> cases c <;> simp [omax, Nat.max_assoc]

theorem partsLmid_from (c : String) (xs : List PokePart) (o : Option Nat) :
    xs.foldl (fun o pt => omax o (pt.lastMutationIDChanges c)) o =
      omax o (partsLmid xs c) := by
  induction xs generalizing o with
  | nil => simp [partsLmid, omax_none_right]
  | cons x xs ih =>
    have hcons : partsLmid (x :: xs) c =
        omax (x.lastMutationIDChanges c) (partsLmid xs c) := by
      rw [partsLmid, List.foldl_cons]
      exact ih (x.lastMutationIDChanges c)
    rw [List.foldl_cons, ih, hcons, omax_assoc]

theorem partsLmid_append (c : String) (xs ys : List PokePart) :
    partsLmid (xs ++ ys) c = omax (partsLmid xs c) (partsLmid ys c) := by
  rw [partsLmid, List.foldl_append, partsLmid_from]
  rfl

theorem mergeAll_baseCookie (ps : List Poke) (acc : MergedPoke) :
    (mergeAll acc ps).baseCookie = acc.baseCookie := by
  induction ps generalizing acc with
  | nil => rfl
  | cons q rest ih => rw [mergeAll, ih]; rfl

theorem mergeAll_cookie (ps : List Poke) (acc : MergedPoke) :
    (mergeAll acc ps).cookie = lastCookieD acc.cookie ps := by
  induction ps generalizing acc with
  | nil => rfl
  | cons q rest ih => rw [mergeAll, ih]; rfl

theorem lastCookieD_eq_getLast (ps : List Poke) (h : ps ≠ []) (d : Nat) :
    lastCookieD d ps = (ps.getLast h).cookie := by
  induction ps generalizing d with
  | nil => exact absurd rfl h
  | cons q rest ih =>
    cases rest with
    | nil => rfl
    | cons r rs => rw [lastCookieD, ih (by simp) q.cookie]; rfl

theorem mergeAll_lmid (ps : List Poke) (acc : MergedPoke) (c : String) :
    (mergeAll acc ps).lastMutationIDChanges c =
      omax (acc.lastMutationIDChanges c)
        (partsLmid (ps.flatMap Poke.parts) c) := by
  induction ps generalizing acc with
  | nil => simp [mergeAll, partsLmid, omax_none_right]
  | cons q rest ih =>
    rw [mergeAll, ih, List.flatMap_cons, partsLmid_append, ← omax_assoc]
    rfl

theorem mergeAll_patch (ps : List Poke) (acc : MergedPoke) :
    (mergeAll acc ps).patch = acc.patch ++ ps.flatMap pokePatch := by
  induction ps generalizing acc with
  | nil => simp [mergeAll]
  | cons q rest ih =>
    rw [mergeAll, ih, List.flatMap_cons, ← List.append_assoc]
    rfl

theorem mergeInto_ok (ps : List Poke) (acc : MergedPoke)
    (h : chainedFrom acc.cookie ps = true) :
    mergeInto acc ps = .ok (mergeAll acc ps) := by
  induction ps generalizing acc with
  | nil => rfl
  | cons q rest ih =>
    rw [chainedFrom, Bool.and_eq_true, beq_iff_eq] at h
    rw [mergeInto, mergePoke, if_pos (show (toMerged q).baseCookie = acc.cookie from h.1)]
    rw [mergeAll]
    exact ih _ h.2

theorem mergeInto_error (ps : List Poke) (acc : MergedPoke)
    (h : chainedFrom acc.cookie ps = false) :
    ∃ e, mergeInto acc ps = .error e := by
  induction ps generalizing acc with
  | nil => simp [chainedFrom] at h
  | cons q rest ih =>
    rw [chainedFrom, Bool.and_eq_false_iff] at h
    by_cases hq : q.baseCookie = acc.cookie
    · have hrest : chainedFrom q.cookie rest = false := by
        rcases h with h | h
        · exact absurd (beq_iff_eq.mpr hq) (by simp [h])
        · exact h
      rw [mergeInto, mergePoke, if_pos (show (toMerged q).baseCookie = acc.cookie from hq)]
      exact ih _ hrest
    · rw [mergeInto, mergePoke,
        if_neg (show ¬(toMerged q).baseCookie = acc.cookie from hq)]
      exact ⟨_, rfl⟩

theorem combinePokes_assoc (x y z : MergedPoke) :
    combinePokes (combinePokes x y) z = combinePokes x (combinePokes y z) := by
  refine MergedPoke.ext rfl rfl ?_ ?_
  · funext c
    exact omax_assoc _ _ _
  · simp [combinePokes]

/-- C1: for every non-empty list of completed pokes whose cookies chain,
`mergePokes` returns a single merged poke whose base cookie is the first
poke's base cookie, whose cookie is the last poke's cookie, whose
`lastMutationIDChanges` maps each client id to the per-client max over
all parts, and whose patch is the concatenation of all parts' patches —
within-poke order first, then cross-poke order — with keys rewritten to
the namespaced forms `c/<clientID>`, `d/<clientID>/<hash>`, `g/<hash>`
and `e/<key>`. -/
theorem mergePokes_chained_spec (p : Poke) (rest : List Poke)
    (h : chained (p :: rest) = true) :
    mergePokes (p :: rest) =
      .ok (some
        { baseCookie := p.baseCookie
          cookie := ((p :: rest).getLast (List.cons_ne_nil p rest)).cookie
          lastMutationIDChanges := fun c =>
            partsLmid ((p :: rest).flatMap Poke.parts) c
          patch := (p :: rest).flatMap pokePatch }) := by
  rw [mergePokes, mergeInto_ok rest (toMerged p) h]
  have hm : mergeAll (toMerged p) rest =
      ({ baseCookie := p.baseCookie
         cookie := ((p :: rest).getLast (List.cons_ne_nil p rest)).cookie
         lastMutationIDChanges := fun c =>
           partsLmid ((p :: rest).flatMap Poke.parts) c
         patch := (p :: rest).flatMap pokePatch } : MergedPoke) := by
    refine MergedPoke.ext ?_ ?_ ?_ ?_
    · exact mergeAll_baseCookie rest (toMerged p)
    · rw [mergeAll_cookie]
      cases rest with
      | nil => rfl
      | cons r rs =>
        exact lastCookieD_eq_getLast (r :: rs) (by simp) p.cookie
    · funext c
      show (mergeAll (toMerged p) rest).lastMutationIDChanges c =
        partsLmid ((p :: rest).flatMap Poke.parts) c
      rw [mergeAll_lmid, List.flatMap_cons, partsLmid_append]
      rfl
    · show (mergeAll (toMerged p) rest).patch = (p :: rest).flatMap pokePatch
      rw [mergeAll_patch, List.flatMap_cons]
      rfl
  rw [hm]
  rfl

/-- Concrete witness for `mergePokes_chained_spec`: two chained sample
pokes. -/
theorem mergePokes_chained_spec_witness :
    mergePokes (samplePoke1 :: [samplePoke2]) =
      .ok (some
        ({ baseCookie := samplePoke1.baseCookie
           cookie := ((samplePoke1 :: [samplePoke2]).getLast
             (List.cons_ne_nil samplePoke1 [samplePoke2])).cookie
           lastMutationIDChanges := fun c =>
             partsLmid ((samplePoke1 :: [samplePoke2]).flatMap Poke.parts) c
           patch := (samplePoke1 :: [samplePoke2]).flatMap pokePatch } : MergedPoke)) :=
  mergePokes_chained_spec samplePoke1 [samplePoke2] (by decide)

/-- C2: for every list of pokes in which some poke's base cookie differs
from the preceding poke's cookie, `mergePokes` raises; on the next tick
the poke handler fires `onPokeError`, makes no applier call, and clears
all pending pokes, so the subsequent tick applies nothing. -/
theorem mergePokes_gap_error (ps : List Poke) (h : chained ps = false) :
    (∃ e, mergePokes ps = .error e) ∧
    (tick ⟨ps⟩).pokeError = true ∧
    (tick ⟨ps⟩).applied = none ∧
    (tick ⟨ps⟩).state.pokeBuffer = [] ∧
    (tick (tick ⟨ps⟩).state).applied = none ∧
    (tick (tick ⟨ps⟩).state).pokeError = false := by
  obtain ⟨e, he⟩ : ∃ e, mergePokes ps = .error e := by
    cases ps with
    | nil => simp [chained] at h
    | cons p rest =>
      obtain ⟨e, he⟩ := mergeInto_error rest (toMerged p) h
      exact ⟨e, by rw [mergePokes, he]; rfl⟩
  have ht : tick ⟨ps⟩ = { state := ⟨[]⟩, pokeError := true, applied := none } := by
    simp only [tick, he]
  refine ⟨⟨e, he⟩, ?_, ?_, ?_, ?_, ?_⟩ <;> rw [ht] <;> rfl

/-- Concrete witness for `mergePokes_gap_error`: `samplePokeGap`'s base
cookie 5 does not chain onto `samplePoke1`'s cookie 2. -/
theorem mergePokes_gap_error_witness :
    (∃ e, mergePokes [samplePoke1, samplePokeGap] = .error e) ∧
    (tick ⟨[samplePoke1, samplePokeGap]⟩).pokeError = true ∧
    (tick ⟨[samplePoke1, samplePokeGap]⟩).applied = none ∧
    (tick ⟨[samplePoke1, samplePokeGap]⟩).state.pokeBuffer = [] ∧
    (tick (tick ⟨[samplePoke1, samplePokeGap]⟩).state).applied = none ∧
    (tick (tick ⟨[samplePoke1, samplePokeGap]⟩).state).pokeError = false :=
  mergePokes_gap_error [samplePoke1, samplePokeGap] (by decide)

/-- C7: the binary poke merge is associative — for completed pokes `a`,
`b`, `c` whose cookies chain, merging the merge of `a` and `b` with `c`
yields the same merged poke as merging `a` with the merge of `b` and
`c`. -/
theorem mergePoke_assoc (a b c : Poke)
    (h1 : b.baseCookie = a.cookie) (h2 : c.baseCookie = b.cookie) :
    Except.bind (mergePoke (toMerged a) (toMerged b))
        (fun m => mergePoke m (toMerged c)) =
      Except.bind (mergePoke (toMerged b) (toMerged c))
        (fun m => mergePoke (toMerged a) m) := by
  rw [mergePoke, if_pos (show (toMerged b).baseCookie = (toMerged a).cookie from h1),
    mergePoke, if_pos (show (toMerged c).baseCookie = (toMerged b).cookie from h2)]
  show mergePoke (combinePokes (toMerged a) (toMerged b)) (toMerged c) =
    mergePoke (toMerged a) (combinePokes (toMerged b) (toMerged c))
  rw [mergePoke,
    if_pos (show (toMerged c).baseCookie =
      (combinePokes (toMerged a) (toMerged b)).cookie from h2),
    mergePoke,
    if_pos (show (combinePokes (toMerged b) (toMerged c)).baseCookie =
      (toMerged a).cookie from h1),
    combinePokes_assoc]

/-- Concrete witness for `mergePoke_assoc`: three chained sample pokes. -/
theorem mergePoke_assoc_witness :
    Except.bind (mergePoke (toMerged samplePoke1) (toMerged samplePoke2))
        (fun m => mergePoke m (toMerged samplePoke3)) =
      Except.bind (mergePoke (toMerged samplePoke2) (toMerged samplePoke3))
        (fun m => mergePoke (toMerged samplePoke1) m) :=
  mergePoke_assoc samplePoke1 samplePoke2 samplePoke3 (by decide) (by decide)

/-! ## Client-handler lemmas -/

theorem foldl_addPatch (ps : List (Nat × String)) (pk : Poker) :
    ps.foldl (fun pk q => addPatch pk q.1 q.2) pk =
      { pk with buffer := pk.buffer ++
          (if pk.active then
            (ps.filter fun q => decide (pk.baseCookie < q.1)).map Prod.snd
          else []) } := by
  induction ps generalizing pk with
  | nil => simp
  | cons q rest ih =>
    rw [List.foldl_cons, addPatch]
    by_cases ha : pk.active
    · by_cases hv : pk.baseCookie < q.1
      · rw [if_pos (by simp [ha, hv]), ih]
        simp [ha, hv, List.filter_cons, List.append_assoc]
      · rw [if_neg (by simp [hv]), ih]
        simp [ha, hv, List.filter_cons]
    · rw [if_neg (by simp [ha]), ih]
      simp [ha]

theorem emittedPatches_endPoke (pk : Poker) :
    emittedPatches (endPoke pk) = if pk.active then pk.buffer else [] := by
  rw [endPoke]
  by_cases ha : pk.active
  · rw [if_pos ha, if_pos ha]
    by_cases hb : pk.buffer.isEmpty
    · rw [if_pos hb, List.isEmpty_iff.mp hb]
      rfl
    · rw [if_neg hb]
      simp [emittedPatches]
  · rw [if_neg ha, if_neg ha]
    rfl

theorem emittedPatches_clientPoke (b v : Nat) (ps : List (Nat × String)) :
    emittedPatches (clientPoke b v ps) =
      if b < v then (ps.filter fun q => decide (b < q.1)).map Prod.snd
      else [] := by
  rw [clientPoke, foldl_addPatch, emittedPatches_endPoke]
  by_cases hbv : b < v <;> simp [startPoke, hbv]

/-- C3: a patch handed to a client-handler poker via `addPatch` appears
in the client's outbound stream iff its `toVersion` is greater than the
client's base cookie (assuming patches never exceed the poke's target
version, and patch bodies are pairwise distinct so that appearance is
well-defined); a poke in which every individual patch is filtered out by
this rule still produces a `pokeStart` and a `pokeEnd` frame with no
parts. -/
theorem addPatch_filter_spec (b v : Nat) (ps : List (Nat × String))
    (hle : ∀ q ∈ ps, q.1 ≤ v) (hnd : (ps.map Prod.snd).Nodup) :
    (∀ tv patch, (tv, patch) ∈ ps →
      (patch ∈ emittedPatches (clientPoke b v ps) ↔ b < tv)) ∧
    (b < v → (∀ q ∈ ps, q.1 ≤ b) →
      clientPoke b v ps = [Frame.pokeStart v b v, Frame.pokeEnd v]) := by
  constructor
  · intro tv patch hmem
    rw [emittedPatches_clientPoke]
    by_cases hbv : b < v
    · rw [if_pos hbv]
      constructor
      · intro hp
        obtain ⟨q, hqf, hq2⟩ := List.mem_map.mp hp
        obtain ⟨hqmem, hqkeep⟩ := List.mem_filter.mp hqf
        have hqeq : q = (tv, patch) :=
          List.inj_on_of_nodup_map hnd hqmem hmem hq2
        rw [hqeq] at hqkeep
        simpa using hqkeep
      · intro htv
        exact List.mem_map.mpr
          ⟨(tv, patch), List.mem_filter.mpr ⟨hmem, by simpa using htv⟩, rfl⟩
    · rw [if_neg hbv]
      simp only [List.not_mem_nil, false_iff]
      intro htv
      have h1 := hle (tv, patch) hmem
      omega
  · intro hbv hall
    rw [clientPoke, foldl_addPatch]
    have hfil : ps.filter (fun q => decide ((startPoke b v).baseCookie < q.1)) = [] := by
      refine List.filter_eq_nil_iff.mpr ?_
      intro q hq
      have := hall q hq
      simp only [startPoke, decide_eq_true_eq]
      omega
    rw [hfil]
    simp [startPoke, endPoke, hbv]

/-- Concrete witness for `addPatch_filter_spec`: a client at cookie 2
receiving a poke to version 4 with one old and one new patch. -/
theorem addPatch_filter_spec_witness :
    (∀ tv patch, (tv, patch) ∈ [(1, "old"), (3, "new")] →
      (patch ∈ emittedPatches (clientPoke 2 4 [(1, "old"), (3, "new")]) ↔ 2 < tv)) ∧
    (2 < 4 → (∀ q ∈ [(1, "old"), (3, "new")], q.1 ≤ 2) →
      clientPoke 2 4 [(1, "old"), (3, "new")] =
        [Frame.pokeStart 4 2 4, Frame.pokeEnd 4]) :=
  addPatch_filter_spec 2 4 [(1, "old"), (3, "new")] (by decide) (by decide)

/-- C10: a poke whose target version equals the client's current base
cookie produces no frames at all — not even the `pokeStart` and
`pokeEnd` pair. -/
theorem startPoke_caught_up_no_frames (b : Nat) (ps : List (Nat × String)) :
    clientPoke b b ps = [] := by
  rw [clientPoke, foldl_addPatch]
  simp [startPoke, endPoke]

/-- C6: when a client-handler poker emits a row patch, any integer value
exceeding the safe-integer range of IEEE 754 doubles is rejected at emit
time by raising `UnsafeIntegerError`, and contents whose every integer
value is within the safe-integer range are emitted without error. -/
theorem emitRowContents_safe_spec (cs : List (String × Int)) :
    ((∃ kv ∈ cs, isSafeInteger kv.2 = false) →
      emitRowContents cs = .error "UnsafeIntegerError") ∧
    ((∀ kv ∈ cs, isSafeInteger kv.2 = true) → emitRowContents cs = .ok cs) := by
  induction cs with
  | nil =>
    refine ⟨?_, fun _ => rfl⟩
    rintro ⟨kv, hkv, _⟩
    simp at hkv
  | cons kv rest ih =>
    obtain ⟨k, v⟩ := kv
    constructor
    · rintro ⟨x, hx, hxf⟩
      by_cases hv : isSafeInteger v = true
      · rw [emitRowContents, if_pos hv]
        have hxrest : x ∈ rest := by
          rcases List.mem_cons.mp hx with h | h
          · rw [h] at hxf
            exact absurd hv (by simp [hxf])
          · exact h
        rw [ih.1 ⟨x, hxrest, hxf⟩]
        rfl
      · rw [emitRowContents, if_neg hv]
    · intro hall
      have hv : isSafeInteger v = true := hall (k, v) (List.mem_cons_self _ _)
      rw [emitRowContents, if_pos hv,
        ih.2 (fun kv hkv => hall kv (List.mem_cons_of_mem _ hkv))]
      rfl

/-- Concrete witness for `emitRowContents_safe_spec`: `2 ^ 53` is
rejected, a small integer row is emitted unchanged. -/
theorem emitRowContents_safe_spec_witness :
    emitRowContents [("id", (1 : Int)), ("big", (9007199254740992 : Int))] =
      .error "UnsafeIntegerError" ∧
    emitRowContents [("id", (1 : Int)), ("num", (123456 : Int))] =
      .ok [("id", (1 : Int)), ("num", (123456 : Int))] :=
  ⟨(emitRowContents_safe_spec _).1
      ⟨("big", (9007199254740992 : Int)), by simp, by decide⟩,
   (emitRowContents_safe_spec _).2 (by decide)⟩

/-! ## ChangeLog lemmas -/

namespace ChangeLog

theorem sameRowKey_iff (e : Entry) (t k : String) :
    sameRowKey e t k = true ↔ e.table = t ∧ e.rowKey = some k := by
  simp [sameRowKey]

theorem keyUnique_logRowOp (db : List Entry) (version t k op : String)
    (h : keyUnique db) : keyUnique (logRowOp db version t k op) := by
  rw [logRowOp]
  by_cases hc : db.any (fun e => sameRowKey e t k) = true
  · rw [if_pos hc]
    have hkeys : ∀ e : Entry,
        (if sameRowKey e t k then
          ({ e with stateVersion := version, op := op } : Entry) else e).table = e.table ∧
        (if sameRowKey e t k then
          ({ e with stateVersion := version, op := op } : Entry) else e).rowKey = e.rowKey := by
      intro e
      split <;> exact ⟨rfl, rfl⟩
    refine List.Pairwise.map _ (fun a b hab => ?_) h
    intro hcon
    apply hab
    constructor
    · rw [← (hkeys a).1, ← (hkeys b).1]
      exact hcon.1
    · rw [← (hkeys a).2, ← (hkeys b).2]
      exact hcon.2
  · rw [if_neg hc]
    show List.Pairwise _ _
    rw [List.pairwise_append]
    refine ⟨h, List.pairwise_singleton _ _, ?_⟩
    intro a ha e he
    rw [List.mem_singleton] at he
    subst he
    intro hcon
    exact hc (List.any_eq_true.mpr
      ⟨a, ha, (sameRowKey_iff a t k).mpr ⟨hcon.1, hcon.2⟩⟩)

theorem keyUnique_logTruncateOp (db : List Entry) (version t : String)
    (h : keyUnique db) : keyUnique (logTruncateOp db version t) := by
  rw [logTruncateOp]
  show List.Pairwise _ _
  rw [List.pairwise_append]
  refine ⟨h.sublist (List.filter_sublist db), List.pairwise_singleton _ _, ?_⟩
  intro a ha e he
  rw [List.mem_singleton] at he
  subst he
  intro hcon
  have hne : (a.table != t) = true := (List.mem_filter.mp ha).2
  rw [bne_iff_ne] at hne
  exact hne hcon.1

theorem find?_map_update (db : List Entry) (version t k op : String)
    (hc : db.any (fun e => sameRowKey e t k) = true) :
    findRow (db.map fun e => if sameRowKey e t k then
        ({ e with stateVersion := version, op := op } : Entry) else e) t k =
      some { stateVersion := version, table := t, rowKey := some k, op := op } := by
  induction db with
  | nil => simp at hc
  | cons e rest ih =>
    rw [List.map_cons, findRow]
    by_cases he : sameRowKey e t k = true
    · rw [if_pos he,
        List.find?_cons_of_pos (p := fun x => sameRowKey x t k) _
          (show sameRowKey ({ e with stateVersion := version, op := op } : Entry) t k = true
            from he)]
      obtain ⟨h1, h2⟩ := (sameRowKey_iff e t k).mp he
      simp [h1, h2]
    · rw [if_neg he, List.find?_cons_of_neg (p := fun x => sameRowKey x t k) _ he]
      refine ih ?_
      rcases List.any_eq_true.mp hc with ⟨x, hx, hpx⟩
      rcases List.mem_cons.mp hx with rfl | hxr
      · exact absurd hpx he
      · exact List.any_eq_true.mpr ⟨x, hxr, hpx⟩

theorem findRow_logRowOp (db : List Entry) (version t k op : String)
    (hc : db.any (fun e => sameRowKey e t k) = true) :
    findRow (logRowOp db version t k op) t k =
      some { stateVersion := version, table := t, rowKey := some k, op := op } := by
  rw [logRowOp, if_pos hc]
  exact find?_map_update db version t k op hc

theorem entryKeys_logRowOp (db : List Entry) (version t k op : String)
    (hc : db.any (fun e => sameRowKey e t k) = true) :
    (logRowOp db version t k op).map (fun e => (e.table, e.rowKey)) =
      db.map (fun e => (e.table, e.rowKey)) := by
  rw [logRowOp, if_pos hc, List.map_map]
  refine List.map_congr_left ?_
  intro e _
  show (fun e => (e.table, e.rowKey)) (if sameRowKey e t k then _ else e) = _
  split <;> rfl

theorem logTruncateOp_filter_eq (db : List Entry) (version t : String) :
    (logTruncateOp db version t).filter (fun e => e.table == t) =
      [{ stateVersion := version, table := t, rowKey := none, op := TRUNCATE_OP }] := by
  rw [logTruncateOp, List.filter_append]
  have h1 : (db.filter fun e => e.table != t).filter (fun e => e.table == t) = [] := by
    refine List.filter_eq_nil_iff.mpr ?_
    intro a ha
    have hne : (a.table != t) = true := (List.mem_filter.mp ha).2
    simpa using hne
  rw [h1, List.nil_append]
  simp [List.filter]

theorem logTruncateOp_filter_ne (db : List Entry) (version t : String) :
    (logTruncateOp db version t).filter (fun e => e.table != t) =
      db.filter (fun e => e.table != t) := by
  rw [logTruncateOp, List.filter_append]
  have h2 : List.filter (fun e => e.table != t)
      [({ stateVersion := version, table := t, rowKey := none, op := TRUNCATE_OP } : Entry)]
      = [] := by
    simp [List.filter]
  rw [h2, List.append_nil, List.filter_filter]
  simp

end ChangeLog

/-- C4: every ChangeLog operation preserves the at-most-one-live-entry
invariant per `(table, rowKey)` pair; a set or delete on an
already-logged key overwrites the existing entry in place (the key
sequence of the log is unchanged) with the newer state version and op;
a truncate deletes all prior entries for the table and inserts a single
truncate sentinel whose row key is `NULL`. -/
theorem changeLog_at_most_one_live_entry (db : List ChangeLog.Entry)
    (version t k : String) (h : ChangeLog.keyUnique db) :
    ChangeLog.keyUnique (ChangeLog.logSetOp db version t k) ∧
    ChangeLog.keyUnique (ChangeLog.logDeleteOp db version t k) ∧
    ChangeLog.keyUnique (ChangeLog.logTruncateOp db version t) ∧
    (db.any (fun e => ChangeLog.sameRowKey e t k) = true →
      (ChangeLog.logSetOp db version t k).map (fun e => (e.table, e.rowKey)) =
          db.map (fun e => (e.table, e.rowKey)) ∧
      ChangeLog.findRow (ChangeLog.logSetOp db version t k) t k =
          some { stateVersion := version, table := t, rowKey := some k,
                 op := ChangeLog.SET_OP } ∧
      (ChangeLog.logDeleteOp db version t k).map (fun e => (e.table, e.rowKey)) =
          db.map (fun e => (e.table, e.rowKey)) ∧
      ChangeLog.findRow (ChangeLog.logDeleteOp db version t k) t k =
          some { stateVersion := version, table := t, rowKey := some k,
                 op := ChangeLog.DEL_OP }) ∧
    (ChangeLog.logTruncateOp db version t).filter (fun e => e.table == t) =
      [{ stateVersion := version, table := t, rowKey := none,
         op := ChangeLog.TRUNCATE_OP }] ∧
    (ChangeLog.logTruncateOp db version t).filter (fun e => e.table != t) =
      db.filter (fun e => e.table != t) := by
  refine ⟨ChangeLog.keyUnique_logRowOp db version t k _ h,
    ChangeLog.keyUnique_logRowOp db version t k _ h,
    ChangeLog.keyUnique_logTruncateOp db version t h,
    fun hc => ⟨ChangeLog.entryKeys_logRowOp db version t k _ hc,
      ChangeLog.findRow_logRowOp db version t k _ hc,
      ChangeLog.entryKeys_logRowOp db version t k _ hc,
      ChangeLog.findRow_logRowOp db version t k _ hc⟩,
    ChangeLog.logTruncateOp_filter_eq db version t,
    ChangeLog.logTruncateOp_filter_ne db version t⟩

/-- Concrete witness for `changeLog_at_most_one_live_entry`: a two-entry
log, updating and truncating the `issues` table. -/
theorem changeLog_at_most_one_live_entry_witness :
    ChangeLog.keyUnique (ChangeLog.logSetOp
      [⟨"01", "issues", some "r1", "s"⟩, ⟨"01", "users", some "u1", "s"⟩] "02" "issues" "r1") ∧
    ChangeLog.keyUnique (ChangeLog.logDeleteOp
      [⟨"01", "issues", some "r1", "s"⟩, ⟨"01", "users", some "u1", "s"⟩] "02" "issues" "r1") ∧
    ChangeLog.keyUnique (ChangeLog.logTruncateOp
      [⟨"01", "issues", some "r1", "s"⟩, ⟨"01", "users", some "u1", "s"⟩] "02" "issues") ∧
    (([⟨"01", "issues", some "r1", "s"⟩, ⟨"01", "users", some "u1", "s"⟩] :
        List ChangeLog.Entry).any
        (fun e => ChangeLog.sameRowKey e "issues" "r1") = true →
      (ChangeLog.logSetOp
          [⟨"01", "issues", some "r1", "s"⟩, ⟨"01", "users", some "u1", "s"⟩] "02" "issues" "r1").map
          (fun e => (e.table, e.rowKey)) =
        ([⟨"01", "issues", some "r1", "s"⟩, ⟨"01", "users", some "u1", "s"⟩] :
          List ChangeLog.Entry).map (fun e => (e.table, e.rowKey)) ∧
      ChangeLog.findRow (ChangeLog.logSetOp
          [⟨"01", "issues", some "r1", "s"⟩, ⟨"01", "users", some "u1", "s"⟩] "02" "issues" "r1")
          "issues" "r1" =
        some { stateVersion := "02", table := "issues", rowKey := some "r1",
               op := ChangeLog.SET_OP } ∧
      (ChangeLog.logDeleteOp
          [⟨"01", "issues", some "r1", "s"⟩, ⟨"01", "users", some "u1", "s"⟩] "02" "issues" "r1").map
          (fun e => (e.table, e.rowKey)) =
        ([⟨"01", "issues", some "r1", "s"⟩, ⟨"01", "users", some "u1", "s"⟩] :
          List ChangeLog.Entry).map (fun e => (e.table, e.rowKey)) ∧
      ChangeLog.findRow (ChangeLog.logDeleteOp
          [⟨"01", "issues", some "r1", "s"⟩, ⟨"01", "users", some "u1", "s"⟩] "02" "issues" "r1")
          "issues" "r1" =
        some { stateVersion := "02", table := "issues", rowKey := some "r1",
               op := ChangeLog.DEL_OP }) ∧
    (ChangeLog.logTruncateOp
        [⟨"01", "issues", some "r1", "s"⟩, ⟨"01", "users", some "u1", "s"⟩] "02" "issues").filter
        (fun e => e.table == "issues") =
      [{ stateVersion := "02", table := "issues", rowKey := none,
         op := ChangeLog.TRUNCATE_OP }] ∧
    (ChangeLog.logTruncateOp
        [⟨"01", "issues", some "r1", "s"⟩, ⟨"01", "users", some "u1", "s"⟩] "02" "issues").filter
        (fun e => e.table != "issues") =
      ([⟨"01", "issues", some "r1", "s"⟩, ⟨"01", "users", some "u1", "s"⟩] :
        List ChangeLog.Entry).filter (fun e => e.table != "issues") :=
  changeLog_at_most_one_live_entry
    [⟨"01", "issues", some "r1", "s"⟩, ⟨"01", "users", some "u1", "s"⟩]
    "02" "issues" "r1" (by decide)

/-! ## Replication-config theorems -/

/-- C5 counterexample: a stored config with `resetRequired` set and
`autoReset` configured does not raise when its `(replicaVersion,
publications)` disagrees with the supplied config — the tables are
truncated and re-initialized instead, and the `resetRequired` check is
never reached. -/
theorem ensureReplicationConfig_reset_counterexample :
    ChangeStreamer.ensureReplicationConfig
        (some { replicaVersion := "v0", publications := ["pub0"],
                resetRequired := some true })
        { replicaVersion := "v1", publications := ["pub0"] } true
      = .ok .reinitialized := by
  rfl

/-- C5 (amended): if the stored replication config is compatible with
the supplied one (same replica version, equal publication sets) and has
`resetRequired` set, and `autoReset` is configured,
`ensureReplicationConfig` raises an `AutoResetSignal`; the supervisor
responds to an `AutoResetSignal` of the first initialization attempt by
deleting the replica and re-running initial sync, and a second
`AutoResetSignal` propagates. -/
theorem ensureReplicationConfig_autoReset_spec
    (s : ChangeStreamer.StoredConfig) (config : ChangeStreamer.ReplicationConfig)
    (hv : s.replicaVersion = config.replicaVersion)
    (hp : ChangeStreamer.sameSet s.publications config.publications = true)
    (hr : s.resetRequired = some true) :
    ChangeStreamer.ensureReplicationConfig (some s) config true =
      .error "AutoResetSignal" ∧
    (∀ n : Nat, ChangeStreamer.superviseInit (.error .autoResetSignal) (.ok n) =
      .ok (true, n)) ∧
    ChangeStreamer.superviseInit (.error .autoResetSignal) (.error .autoResetSignal) =
      .error .autoResetSignal := by
  refine ⟨?_, fun n => rfl, rfl⟩
  rw [ChangeStreamer.ensureReplicationConfig]
  rw [if_neg (by simp [hv, hp]), if_pos (by simp [hr])]
  rfl

/-! ## Query-transform lemmas -/

namespace Queries

theorem expandSelection_error_inv (tables : List TableSpec) (refs : List String)
    (e : QueryError) (h : expandSelection tables refs = .error e) :
    ∃ tr, e = .invalidQuery tr ∧ findSpec tables tr = none := by
  induction refs generalizing e with
  | nil => exact Except.noConfusion h
  | cons r rest ih =>
    rw [expandSelection] at h
    cases hr : findSpec tables r with
    | none =>
      rw [hr] at h
      refine ⟨r, ?_, hr⟩
      injection h with h
      exact h.symm
    | some t =>
      rw [hr] at h
      cases hrest : expandSelection tables rest with
      | error e2 =>
        rw [hrest] at h
        obtain ⟨tr, h1, h2⟩ := ih e2 hrest
        refine ⟨tr, ?_, h2⟩
        injection h with h
        rw [← h, h1]
      | ok ex =>
        rw [hrest] at h
        exact Except.noConfusion h

theorem expandSelection_unknown (tables : List TableSpec) (refs : List String)
    (h : ∃ tr ∈ refs, findSpec tables tr = none) :
    ∃ tr, expandSelection tables refs = .error (.invalidQuery tr) ∧
      findSpec tables tr = none := by
  induction refs with
  | nil =>
    obtain ⟨tr, htr, _⟩ := h
    exact absurd htr (List.not_mem_nil tr)
  | cons r rest ih =>
    cases hr : findSpec tables r with
    | none => exact ⟨r, by rw [expandSelection, hr], hr⟩
    | some t =>
      obtain ⟨tr, htr, hn⟩ := h
      have htr' : tr ∈ rest := by
        rcases List.mem_cons.mp htr with rfl | hx
        · rw [hr] at hn
          exact Option.noConfusion hn
        · exact hx
      obtain ⟨tr2, he, hn2⟩ := ih ⟨tr, htr', hn⟩
      refine ⟨tr2, ?_, hn2⟩
      rw [expandSelection, hr, he]
      rfl

end Queries

/-- C8: for every list of queries handed to `QueryHandler.transform`, if
any query's AST references a table not present in the configured table
specs, `transform` throws `InvalidQueryError` (naming an unknown
table). -/
theorem transform_unknown_table (tables : List Queries.TableSpec)
    (queries : List (String × Queries.AST))
    (h : ∃ q ∈ queries, ∃ tr ∈ q.2.referencedTables,
      Queries.findSpec tables tr = none) :
    ∃ tr, Queries.transform tables queries =
        .error (.invalidQuery tr) ∧
      Queries.findSpec tables tr = none := by
  induction queries with
  | nil =>
    obtain ⟨q, hq, _⟩ := h
    exact absurd hq (List.not_mem_nil q)
  | cons q rest ih =>
    cases hq : Queries.expandSelection tables q.2.referencedTables with
    | error e =>
      obtain ⟨tr, he, hn⟩ := Queries.expandSelection_error_inv tables _ e hq
      refine ⟨tr, ?_, hn⟩
      rw [Queries.transform, hq, he]
    | ok ex =>
      obtain ⟨q1, hq1, tr, htr, hn⟩ := h
      rcases List.mem_cons.mp hq1 with rfl | hq1r
      · obtain ⟨tr2, he2, _⟩ :=
          Queries.expandSelection_unknown tables _ ⟨tr, htr, hn⟩
        rw [hq] at he2
        exact Except.noConfusion he2
      · obtain ⟨tr2, he2, hn2⟩ := ih ⟨q1, hq1r, tr, htr, hn⟩
        refine ⟨tr2, ?_, hn2⟩
        rw [Queries.transform, hq, he2]
        rfl

/-- Concrete witness for `transform_unknown_table`: a query referencing a
table absent from the specs. -/
theorem transform_unknown_table_witness :
    ∃ tr, Queries.transform [{ schema := "public", name := "issues", primaryKey := ["id"] }]
        [("q1", { referencedTables := ["issues", "nosuch"] })] =
        .error (.invalidQuery tr) ∧
      Queries.findSpec [{ schema := "public", name := "issues", primaryKey := ["id"] }] tr =
        none :=
  transform_unknown_table
    [{ schema := "public", name := "issues", primaryKey := ["id"] }]
    [("q1", { referencedTables := ["issues", "nosuch"] })]
    ⟨("q1", { referencedTables := ["issues", "nosuch"] }), by simp,
      "nosuch", by simp, by decide⟩

/-- Concrete witness for `ensureReplicationConfig_autoReset_spec`: a
stored config matching the live one with `resetRequired` set. -/
theorem ensureReplicationConfig_autoReset_spec_witness :
    ChangeStreamer.ensureReplicationConfig
        (some { replicaVersion := "v1", publications := ["pub0"],
                resetRequired := some true })
        { replicaVersion := "v1", publications := ["pub0"] } true =
      .error "AutoResetSignal" ∧
    (∀ n : Nat, ChangeStreamer.superviseInit (.error .autoResetSignal) (.ok n) =
      .ok (true, n)) ∧
    ChangeStreamer.superviseInit (.error .autoResetSignal) (.error .autoResetSignal) =
      .error .autoResetSignal :=
  ensureReplicationConfig_autoReset_spec
    { replicaVersion := "v1", publications := ["pub0"], resetRequired := some true }
    { replicaVersion := "v1", publications := ["pub0"] }
    rfl (by decide) rfl

/-! ## Result-processor lemmas -/

namespace Queries

theorem noVersionKey_setCol (row : Row) (c : String) (v : Val)
    (hrow : noVersionKey row = true) (hc : (c != zeroVersionColumn) = true) :
    noVersionKey (setCol row c v) = true := by
  rw [setCol]
  split
  · refine List.all_eq_true.mpr ?_
    intro kv hkv
    rw [List.mem_map] at hkv
    obtain ⟨kv0, hkv0, rfl⟩ := hkv
    split
    · exact hc
    · exact List.all_eq_true.mp hrow kv0 hkv0
  · refine List.all_eq_true.mpr ?_
    intro kv hkv
    rcases List.mem_append.mp hkv with hx | hx
    · exact List.all_eq_true.mp hrow kv hx
    · rw [List.mem_singleton] at hx
      subst hx
      exact hc

theorem noVersionKey_spreadMerge (a b : Row)
    (ha : noVersionKey a = true) (hb : noVersionKey b = true) :
    noVersionKey (spreadMerge a b) = true := by
  induction b generalizing a with
  | nil => exact ha
  | cons kv rest ih =>
    rw [spreadMerge, List.foldl_cons]
    have hb1 : (kv.1 != zeroVersionColumn) = true :=
      List.all_eq_true.mp hb kv (List.mem_cons_self _ _)
    have hbrest : noVersionKey rest = true :=
      List.all_eq_true.mpr fun x hx =>
        List.all_eq_true.mp hb x (List.mem_cons_of_mem _ hx)
    exact ih (setCol a kv.1 kv.2) (noVersionKey_setCol a kv.1 kv.2 ha hb1) hbrest

theorem noVersionKey_eraseCol (row : Row) :
    noVersionKey (eraseCol row zeroVersionColumn) = true := by
  refine List.all_eq_true.mpr ?_
  intro kv hkv
  exact (List.mem_filter.mp hkv).2

theorem lookupRes_mem (st : ResultState) (k : String) (rr : RowResult)
    (h : lookupRes st k = some rr) : ∃ e ∈ st, e.2 = rr := by
  rw [lookupRes] at h
  cases hf : st.find? (fun e => e.1 == k) with
  | none => rw [hf] at h; exact Option.noConfusion h
  | some e =>
    rw [hf] at h
    refine ⟨e, List.mem_of_find?_eq_some hf, ?_⟩
    injection h

theorem cleanState_mem (st : ResultState) (h : cleanState st = true)
    (e : String × RowResult) (he : e ∈ st) :
    noVersionKey e.2.contents = true :=
  List.all_eq_true.mp h e.2 (List.mem_map.mpr ⟨e, he, rfl⟩)

theorem cleanState_upsertRes (st : ResultState) (k : String) (rr : RowResult)
    (hst : cleanState st = true) (hrr : noVersionKey rr.contents = true) :
    cleanState (upsertRes st k rr) = true := by
  rw [upsertRes]
  split
  · refine List.all_eq_true.mpr ?_
    intro x hx
    rw [getResults, List.mem_map] at hx
    obtain ⟨e, he, rfl⟩ := hx
    rw [List.mem_map] at he
    obtain ⟨e0, he0, rfl⟩ := he
    split
    · exact hrr
    · exact cleanState_mem st hst e0 he0
  · refine List.all_eq_true.mpr ?_
    intro x hx
    rw [getResults, List.mem_map] at hx
    obtain ⟨e, he, rfl⟩ := hx
    rcases List.mem_append.mp he with hx | hx
    · exact cleanState_mem st hst e hx
    · rw [List.mem_singleton] at hx
      subst hx
      exact hrr

theorem cleanState_processRow (tables : List TableSpec) (qid : String)
    (st : ResultState) (ra : String) (row : Row) (st' : ResultState)
    (h : processRow tables qid st ra row = .ok st')
    (hst : cleanState st = true) : cleanState st' = true := by
  cases hid : rowID tables (splitLastComponent ra).2 row with
  | error e =>
    simp only [processRow, hid] at h
    exact Except.noConfusion h
  | ok id =>
    cases hv : lookupCol row zeroVersionColumn with
    | none =>
      simp only [processRow, hid, hv] at h
      exact Except.noConfusion h
    | some v =>
      cases v with
      | vStr ver =>
        simp only [processRow, hid, hv] at h
        injection h with h
        rw [← h]
        refine cleanState_upsertRes st (makeKey id) _ hst ?_
        show noVersionKey (spreadMerge _ (eraseCol row zeroVersionColumn)) = true
        refine noVersionKey_spreadMerge _ _ ?_ (noVersionKey_eraseCol row)
        cases hlr : lookupRes st (makeKey id) with
        | none => rfl
        | some rr0 =>
          show noVersionKey rr0.contents = true
          obtain ⟨e, he, he2⟩ := lookupRes_mem st _ rr0 hlr
          rw [← he2]
          exact cleanState_mem st hst e he
      | vInt n =>
        simp only [processRow, hid, hv] at h
        exact Except.noConfusion h
      | vBool bb =>
        simp only [processRow, hid, hv] at h
        exact Except.noConfusion h
      | vNull =>
        simp only [processRow, hid, hv] at h
        exact Except.noConfusion h

theorem cleanState_processRows (tables : List TableSpec) (qid : String)
    (rows : List (String × Row)) (st : ResultState) (st' : ResultState)
    (h : processRows tables qid st rows = .ok st')
    (hst : cleanState st = true) : cleanState st' = true := by
  induction rows generalizing st with
  | nil =>
    rw [processRows] at h
    injection h with h
    rw [← h]
    exact hst
  | cons r rs ih =>
    rw [processRows] at h
    cases hpr : processRow tables qid st r.1 r.2 with
    | error e => rw [hpr] at h; exact Except.noConfusion h
    | ok st2 =>
      rw [hpr] at h
      exact ih st2 h (cleanState_processRow tables qid st r.1 r.2 st2 hpr hst)

theorem cleanState_processResults (tables : List TableSpec) (qid : String)
    (results : List Row) (st : ResultState) (st' : ResultState)
    (h : processResults tables qid st results = .ok st')
    (hst : cleanState st = true) : cleanState st' = true := by
  induction results generalizing st with
  | nil =>
    rw [processResults] at h
    injection h with h
    rw [← h]
    exact hst
  | cons r rs ih =>
    rw [processResults] at h
    cases hpr : processResult tables qid st r with
    | error e => rw [hpr] at h; exact Except.noConfusion h
    | ok st2 =>
      rw [hpr] at h
      refine ih st2 h ?_
      exact cleanState_processRows tables qid (partitionResult r) st st2 hpr hst

theorem processRow_bad_version (tables : List TableSpec) (qid : String)
    (st : ResultState) (ra : String) (row : Row)
    (h : hasStringVersion row = false) :
    ∃ e, processRow tables qid st ra row = .error e := by
  cases hid : rowID tables (splitLastComponent ra).2 row with
  | error e => exact ⟨e, by simp only [processRow, hid]⟩
  | ok id =>
    cases hv : lookupCol row zeroVersionColumn with
    | none =>
      exact ⟨"Invalid _0_version in row", by simp only [processRow, hid, hv]⟩
    | some v =>
      cases v with
      | vStr s =>
        rw [hasStringVersion, hv] at h
        exact Bool.noConfusion h
      | vInt n =>
        exact ⟨"Invalid _0_version in row", by simp only [processRow, hid, hv]⟩
      | vBool bb =>
        exact ⟨"Invalid _0_version in row", by simp only [processRow, hid, hv]⟩
      | vNull =>
        exact ⟨"Invalid _0_version in row", by simp only [processRow, hid, hv]⟩

theorem lookupRes_none_any (st : ResultState) (k : String)
    (h : lookupRes st k = none) : st.any (fun e => e.1 == k) = false := by
  rw [lookupRes] at h
  cases hf : st.find? (fun e => e.1 == k) with
  | some e => rw [hf] at h; exact Option.noConfusion h
  | none =>
    rw [List.find?_eq_none] at hf
    exact List.any_eq_false.mpr fun e he => hf e he

theorem find?_append_fresh (st : ResultState) (k : String) (rr : RowResult)
    (hfresh : st.any (fun e => e.1 == k) = false) :
    (st ++ [(k, rr)]).find? (fun e => e.1 == k) = some (k, rr) := by
  induction st with
  | nil => simp
  | cons e rest ih =>
    rw [List.any_cons, Bool.or_eq_false_iff] at hfresh
    rw [List.cons_append,
      List.find?_cons_of_neg _ (by simp [hfresh.1])]
    exact ih hfresh.2

theorem processRow_records_version (tables : List TableSpec) (qid : String)
    (st : ResultState) (ra : String) (row : Row) (id : RowID) (ver : String)
    (st' : ResultState)
    (hid : rowID tables (splitLastComponent ra).2 row = .ok id)
    (hver : lookupCol row zeroVersionColumn = some (.vStr ver))
    (hfresh : lookupRes st (makeKey id) = none)
    (h : processRow tables qid st ra row = .ok st') :
    ∃ rr, lookupRes st' (makeKey id) = some rr ∧
      rr.record.rowVersion = ver ∧ rr.record.id = id ∧
      noVersionKey rr.contents = true := by
  simp only [processRow, hid, hver, hfresh] at h
  have hany : st.any (fun e => e.1 == makeKey id) = false :=
    lookupRes_none_any st (makeKey id) hfresh
  rw [upsertRes, if_neg (by simp [hany])] at h
  injection h with h
  subst h
  refine ⟨{ record :=
              { id := id, rowVersion := ver,
                queriedColumns := List.foldl (fun qc kv => pushQuery qc kv.1 qid) []
                  (eraseCol row zeroVersionColumn) },
            contents := spreadMerge [] (eraseCol row zeroVersionColumn) },
    ?_, rfl, rfl, ?_⟩
  · rw [lookupRes, find?_append_fresh st (makeKey id) _ hany]
    rfl
  · exact noVersionKey_spreadMerge [] _ rfl (noVersionKey_eraseCol row)

end Queries

/-- C9: for every query result row processed by
`ResultProcessor.processResults`, the `_0_version` column is recorded as
the row's version (a missing or non-string `_0_version` is an assertion
failure) and is removed from the row contents, so the contents returned
by `getResults` never contain a `_0_version` key. -/
theorem processResults_version_spec (tables : List Queries.TableSpec)
    (qid : String) (st : Queries.ResultState) :
    (∀ results st', Queries.processResults tables qid st results = .ok st' →
      Queries.cleanState st = true → Queries.cleanState st' = true) ∧
    (∀ ra row, Queries.hasStringVersion row = false →
      ∃ e, Queries.processRow tables qid st ra row = .error e) ∧
    (∀ ra row id ver st',
      Queries.rowID tables (Queries.splitLastComponent ra).2 row = .ok id →
      Queries.lookupCol row Queries.zeroVersionColumn = some (.vStr ver) →
      Queries.lookupRes st (Queries.makeKey id) = none →
      Queries.processRow tables qid st ra row = .ok st' →
      ∃ rr, Queries.lookupRes st' (Queries.makeKey id) = some rr ∧
        rr.record.rowVersion = ver ∧ rr.record.id = id ∧
        Queries.noVersionKey rr.contents = true) :=
  ⟨fun results st' h hst =>
      Queries.cleanState_processResults tables qid results st st' h hst,
   fun ra row h => Queries.processRow_bad_version tables qid st ra row h,
   fun ra row id ver st' hid hver hfresh h =>
      Queries.processRow_records_version tables qid st ra row id ver st'
        hid hver hfresh h⟩

/-- Concrete witness for `processResults_version_spec`: one result row
of an `issues`-like table `t`, carrying `_0_version = "0a"`. -/
theorem processResults_version_spec_witness :
    Queries.cleanState
        [("public/t/id=s:1",
          { record := { id := { schema := "public", table := "t",
                                rowKey := [("id", Queries.Val.vStr "1")] }
                        rowVersion := "0a"
                        queriedColumns := [("id", ["q1"])] }
            contents := [("id", Queries.Val.vStr "1")] })] = true ∧
    (∃ e, Queries.processRow [{ schema := "public", name := "t", primaryKey := ["id"] }]
        "q1" [] "t" [("id", Queries.Val.vStr "1")] = .error e) ∧
    (∃ rr, Queries.lookupRes
        [("public/t/id=s:1",
          { record := { id := { schema := "public", table := "t",
                                rowKey := [("id", Queries.Val.vStr "1")] }
                        rowVersion := "0a"
                        queriedColumns := [("id", ["q1"])] }
            contents := [("id", Queries.Val.vStr "1")] })]
        (Queries.makeKey { schema := "public", table := "t",
                           rowKey := [("id", Queries.Val.vStr "1")] }) = some rr ∧
      rr.record.rowVersion = "0a" ∧
      rr.record.id = { schema := "public", table := "t",
                       rowKey := [("id", Queries.Val.vStr "1")] } ∧
      Queries.noVersionKey rr.contents = true) :=
  ⟨(processResults_version_spec
      [{ schema := "public", name := "t", primaryKey := ["id"] }] "q1" []).1
      [[("t/id", Queries.Val.vStr "1"), ("t/_0_version", Queries.Val.vStr "0a")]]
      [("public/t/id=s:1",
        { record := { id := { schema := "public", table := "t",
                              rowKey := [("id", Queries.Val.vStr "1")] }
                      rowVersion := "0a"
                      queriedColumns := [("id", ["q1"])] }
          contents := [("id", Queries.Val.vStr "1")] })]
      (by rfl) (by decide),
   (processResults_version_spec
      [{ schema := "public", name := "t", primaryKey := ["id"] }] "q1" []).2.1
      "t" [("id", Queries.Val.vStr "1")] (by decide),
   (processResults_version_spec
      [{ schema := "public", name := "t", primaryKey := ["id"] }] "q1" []).2.2
      "t" [("id", Queries.Val.vStr "1"), ("_0_version", Queries.Val.vStr "0a")]
      { schema := "public", table := "t", rowKey := [("id", Queries.Val.vStr "1")] }
      "0a"
      [("public/t/id=s:1",
        { record := { id := { schema := "public", table := "t",
                              rowKey := [("id", Queries.Val.vStr "1")] }
                      rowVersion := "0a"
                      queriedColumns := [("id", ["q1"])] }
          contents := [("id", Queries.Val.vStr "1")] })]
      (by rfl) (by rfl) (by rfl) (by rfl)⟩

end ZeroSync
